import Mathlib

/-!
librei18n: catalog reconciliation, extraction and rendering.

A shallow embedding of `i18n/i18n.go` and of the `merge` command of
`cmd/librei18n/main.go`, followed by the properties established about them.

Go maps are modelled as association lists: the list order is the order in
which one `range` over the map visits its entries (Go leaves that order
unspecified, so every statement below is made for all orders). A Go map value
can also be `nil`; reading and ranging over a nil map behave like the empty
map, assigning into it panics. Run-time panics are modelled as the `panic`
outcome of `Run`.

The libraries the code calls (the YAML, JSON and TOML codecs, `text/template`,
`go/parser`) are not part of the repository: they enter as parameters
(`Codecs`, `TemplateEngine`, `parseFile`), and the contents of files are kept
abstract. The regular expression of the key scanner is matched by `matchTag`,
written after the expression itself.
-/

namespace LibreI18n

/-! ## Data model -/

/-- A dynamically typed catalog value: what the decoders store in an `interface{}`. A
nested record comes in two dynamic types, which a type assertion tells apart: `table` is a
`map[string]interface{}` (what the JSON and TOML decoders build), `catalog` is a value of
the named type `TranslationMap` (what `yaml.v3` builds for a mapping nested in a
`TranslationMap`). -/
inductive Value where
  | str (s : String)
  | int (n : Int)
  | bool (b : Bool)
  | null
  | list (items : List Value)
  | table (fields : List (String × Value))
  | catalog (fields : List (String × Value))

/-- The entries of an allocated Go map, in range order. -/
abbrev Entries := List (String × Value)

/-- The type `TranslationMap` of `i18n.go` (`map[string]interface{}`): the nil map or an
allocated map. -/
inductive TranslationMap where
  | nilMap
  | alloc (entries : Entries)

/-- Outcome of running Go code that may panic or return an `error`. -/
inductive Run (α : Type) where
  | ok (val : α)
  | err (msg : String)
  | panic (msg : String)

/-- The entries visited by `for k, v := range m`; a nil map has none. -/
def TranslationMap.entries : TranslationMap → Entries
  | .nilMap => []
  | .alloc es => es

/-- The keys of a map, in range order. -/
def TranslationMap.keys (m : TranslationMap) : List String :=
  m.entries.map Prod.fst

/-- The comma-ok index expression `v, ok := m[k]`: `none` stands for `ok == false`. -/
def TranslationMap.get? (m : TranslationMap) (k : String) : Option Value :=
  m.entries.lookup k

/-- Go maps hold every key at most once. -/
def TranslationMap.WF (m : TranslationMap) : Prop :=
  m.keys.Nodup

/-- The assignment `m[k] = v` on an allocated map of any value type: overwrite the entry
of `k`, or add one. -/
def mapSet {β : Type} : List (String × β) → String → β → List (String × β)
  | [], k, v => [(k, v)]
  | (k', v') :: rest, k, v =>
      if k' = k then (k, v) :: rest else (k', v') :: mapSet rest k v

/-- The assignment `m[k] = v` on the entries of an allocated `TranslationMap`. -/
def Entries.set (es : Entries) (k : String) (v : Value) : Entries :=
  mapSet es k v

/-- The assignment `m[k] = v`; Go panics when `m` is the nil map. -/
def TranslationMap.assign (m : TranslationMap) (k : String) (v : Value) : Run TranslationMap :=
  match m with
  | .nilMap => .panic "assignment to entry in nil map"
  | .alloc es => .ok (.alloc (Entries.set es k v))

/-! ## Catalog reconciler (`i18n.go`) -/

/-- `CheckMissingAndUnusedKeys` (i18n.go:98-111): two range loops, each appending the keys
the other map lacks. -/
def CheckMissingAndUnusedKeys (base other : TranslationMap) : List String × List String :=
  let missing := base.entries.foldl
    (fun missing kv => if (other.get? kv.1).isSome then missing else missing ++ [kv.1]) []
  let unused := other.entries.foldl
    (fun unused kv => if (base.get? kv.1).isSome then unused else unused ++ [kv.1]) []
  (missing, unused)

/-- `AutoFillMissingKeys` (i18n.go:114-130): copy `target` into a fresh map, then add every
key of `base` the copy lacks, with the placeholder or, when that is empty, the base value. -/
def AutoFillMissingKeys (base target : TranslationMap) (placeholder : String) : TranslationMap :=
  let filled : Entries := []
  let filled := target.entries.foldl (fun filled kv => Entries.set filled kv.1 kv.2) filled
  let filled := base.entries.foldl
    (fun filled kv =>
      if (filled.lookup kv.1).isSome then filled
      else if placeholder ≠ "" then Entries.set filled kv.1 (.str placeholder)
      else Entries.set filled kv.1 kv.2) filled
  .alloc filled

/-! ## The `merge` command (`cmd/librei18n/main.go`) -/

/-- The two catalog variables of the `merge` case of `main`. -/
structure MergeVars where
  srcMap : TranslationMap
  dstMap : TranslationMap

/-- The body of the merge loop (main.go:60-62) for one entry `k, v` of `srcMap`. -/
def mergeBody (vars : MergeVars) (k : String) (v : Value) : Run MergeVars :=
  if (vars.dstMap.get? k).isSome then .ok vars
  else
    match vars.dstMap.assign k v with
    | .ok d => .ok { vars with dstMap := d }
    | .err e => .err e
    | .panic p => .panic p

/-- The merge loop (main.go:59-63) over the entries `srcMap` ranges through. -/
def mergeLoop : Entries → MergeVars → Run MergeVars
  | [], vars => .ok vars
  | (k, v) :: rest, vars =>
      match mergeBody vars k v with
      | .ok vars => mergeLoop rest vars
      | .err e => .err e
      | .panic p => .panic p

/-- The merge step of `main` (main.go:58-63): `for k, v := range srcMap`. -/
def mergeStep (vars : MergeVars) : Run MergeVars :=
  mergeLoop vars.srcMap.entries vars

/-! ## Paths and the external codecs -/

/-- The loop of Go's `filepath.Ext`, run over the path read from its last character
backwards: stop at a separator, return the suffix from the first dot met. -/
def extLoop : List Char → List Char → List Char
  | [], _ => []
  | c :: before, suffix =>
      if c = '/' then []
      else if c = '.' then '.' :: suffix
      else extLoop before (c :: suffix)

/-- Go's `filepath.Ext`: the suffix beginning at the final dot of the final path element,
empty when there is none (with `/` as the path separator). -/
def filepath.Ext (path : String) : String :=
  String.mk (extLoop path.toList.reverse [])

/-- Go's `strings.ToLower`, on the ASCII letters (no other character lower-cases to a
letter of `.yaml`, `.yml`, `.json` or `.toml`). -/
def strings.ToLower (s : String) : String :=
  String.mk (s.toList.map Char.toLower)

/-- A message record (i18n.go:27-31). -/
structure Message where
  ID : String
  One : String
  Other : String

/-- The record `tomlMsg` that `WriteMessagesToTOML` hands to the TOML encoder
(i18n.go:247-251); all three fields are `omitempty`. -/
structure tomlMsg where
  Description : String
  One : String
  Other : String

/-- The external decoders, encoders and formatter the code calls (`yaml.v3`,
`encoding/json`, `go-toml/v2`, `fmt`), over whatever the contents of a file are. A decoder
gets the bytes and yields the map it stored through `&m`, or its error. -/
structure Codecs (Bytes : Type) where
  yamlUnmarshal : Bytes → Run TranslationMap
  jsonUnmarshal : Bytes → Run TranslationMap
  tomlUnmarshal : Bytes → Run TranslationMap
  yamlMarshal : List (String × String) → Run Bytes
  jsonMarshalIndent : TranslationMap → Run Bytes
  tomlMarshal : List (String × tomlMsg) → Run Bytes
  sprintV : Value → String

/-- A file system: the contents of each existing path. -/
abbrev FS (Bytes : Type) := String → Option Bytes

/-- The effect of `os.WriteFile(path, data, 0644)` when the write succeeds. -/
def writeFile {Bytes : Type} (fs : FS Bytes) (path : String) (data : Bytes) : FS Bytes :=
  fun p => if p = path then some data else fs p

/-- `LoadMessages` (i18n.go:181-204): read the file, pick the decoder by the lower-cased
extension of the path. -/
def LoadMessages {Bytes : Type} (lib : Codecs Bytes) (fs : FS Bytes) (path : String) :
    Run TranslationMap :=
  match fs path with
  | none => .err ("open " ++ path ++ ": no such file or directory")
  | some data =>
    let ext := strings.ToLower (filepath.Ext path)
    if ext = ".yaml" ∨ ext = ".yml" then lib.yamlUnmarshal data
    else if ext = ".json" then lib.jsonUnmarshal data
    else if ext = ".toml" then lib.tomlUnmarshal data
    else .err ("unsupported file format: " ++ ext)

/-- `WriteMessagesToTOML` (i18n.go:246-264): key the records by ID (a later message with
the same ID overwrites), encode, write. -/
def WriteMessagesToTOML {Bytes : Type} (lib : Codecs Bytes) (fs : FS Bytes)
    (messages : List Message) (path : String) : Run (FS Bytes) :=
  let tomlMap := messages.foldl
    (fun tomlMap m => mapSet tomlMap m.ID { Description := "", One := m.One, Other := m.Other })
    ([] : List (String × tomlMsg))
  match lib.tomlMarshal tomlMap with
  | .ok data => .ok (writeFile fs path data)
  | .err e => .err e
  | .panic p => .panic p

/-- `toQuotedMap` (i18n.go:43-49): every value formatted with `%v`. -/
def toQuotedMap {Bytes : Type} (lib : Codecs Bytes) (m : TranslationMap) :
    List (String × String) :=
  m.entries.foldl (fun quoted kv => mapSet quoted kv.1 (lib.sprintV kv.2)) []

/-- Go's `sort.Strings`. -/
def sortStrings (keys : List String) : List String :=
  keys.insertionSort (fun a b => a ≤ b)

/-- `PrettyPrintAndSortYAML` (i18n.go:133-156). -/
def PrettyPrintAndSortYAML {Bytes : Type} (lib : Codecs Bytes) (fs : FS Bytes)
    (m : TranslationMap) (path : String) : Run (FS Bytes) :=
  let keys := m.entries.foldl (fun keys kv => keys ++ [kv.1]) []
  let keys := sortStrings keys
  let sorted := keys.foldl (fun sorted k => Entries.set sorted k ((m.get? k).getD .null)) []
  let quoted := toQuotedMap lib (.alloc sorted)
  match lib.yamlMarshal quoted with
  | .ok data => .ok (writeFile fs path data)
  | .err e => .err e
  | .panic p => .panic p

/-- The conversion of one catalog entry into a message in the TOML case of the merge
command (main.go:72-80). The assertion `v.(map[string]interface{})` holds for a `table`
only; `One` and `Other` are then taken from its string fields `one` and `other`. For every
other value, a plain string and a `catalog` included, both stay empty. -/
def messageOfEntry (k : String) (v : Value) : Message :=
  let msg : Message := { ID := k, One := "", Other := "" }
  match v with
  | .table m =>
    let msg : Message :=
      match m.lookup "one" with
      | some (.str one) => { msg with One := one }
      | _ => msg
    let msg : Message :=
      match m.lookup "other" with
      | some (.str other) => { msg with Other := other }
      | _ => msg
    msg
  | _ => msg

/-- The save step of the merge command (main.go:64-98): the serializer is picked by the
extension of `out` as written; an error stands for the fatal `writeErr`. -/
def mergeSave {Bytes : Type} (lib : Codecs Bytes) (fs : FS Bytes) (dstMap : TranslationMap)
    (out : String) : Run (FS Bytes) :=
  let ext := filepath.Ext out
  if ext = ".toml" then
    let messages := dstMap.entries.foldl
      (fun messages kv => messages ++ [messageOfEntry kv.1 kv.2]) []
    WriteMessagesToTOML lib fs messages out
  else if ext = ".yaml" ∨ ext = ".yml" then PrettyPrintAndSortYAML lib fs dstMap out
  else if ext = ".json" then
    match lib.jsonMarshalIndent dstMap with
    | .ok data => .ok (writeFile fs out data)
    | .err e => .err e
    | .panic p => .panic p
  else .err ("unsupported output format: " ++ ext)

/-- Every value of the catalog is a plain string. -/
def allStrings (M : TranslationMap) : Prop :=
  ∀ kv ∈ M.entries, ∃ s, kv.2 = Value.str s

/-- The catalog `M'` has the keys of `M` and the value of `M` at each. -/
def sameCatalog (M M' : TranslationMap) : Prop :=
  ∀ k, M'.get? k = M.get? k

/-- The contract of the JSON library on catalogs of plain strings: encoding succeeds and
decoding the encoded bytes gives the catalog back. -/
def jsonRoundTrips {Bytes : Type} (lib : Codecs Bytes) : Prop :=
  ∀ M, allStrings M → ∃ data M', lib.jsonMarshalIndent M = .ok data ∧
    lib.jsonUnmarshal data = .ok M' ∧ sameCatalog M M'

/-- Codecs over files that hold the decoded catalog itself: JSON encoding and decoding are
the identity, the other formats are left out. -/
def catalogCodecs : Codecs TranslationMap where
  yamlUnmarshal := fun _ => .err "yaml: left out"
  jsonUnmarshal := fun data => .ok data
  tomlUnmarshal := fun _ => .err "toml: left out"
  yamlMarshal := fun _ => .err "yaml: left out"
  jsonMarshalIndent := fun m => .ok m
  tomlMarshal := fun _ => .err "toml: left out"
  sprintV := fun _ => ""

/-! ## Localization renderer (`i18n.go`) -/

/-- The type `LocalizeConfig` (i18n.go:33-37); `DefaultMessage` is a pointer and may be nil. -/
structure LocalizeConfig where
  DefaultMessage : Option Message
  TemplateData : List (String × Value)
  PluralCount : Int

/-- The external template library (`text/template`): `parse name text` stands for
`template.New(name).Parse(text)`, `execute t data` for `t.Execute(&buf, data)` followed by
`buf.String()`. -/
structure TemplateEngine where
  Template : Type
  parse : String → String → Run Template
  execute : Template → List (String × Value) → Run String

/-- Parsing a template text under a name and executing it against the data. -/
def TemplateEngine.render (engine : TemplateEngine) (name text : String)
    (data : List (String × Value)) : Run String :=
  match engine.parse name text with
  | .ok tmpl => engine.execute tmpl data
  | .err e => .err e
  | .panic p => .panic p

/-- `Localize` (i18n.go:158-178). -/
def Localize (engine : TemplateEngine) (cfg : LocalizeConfig) : Run String :=
  match cfg.DefaultMessage with
  | none => .panic "invalid memory address or nil pointer dereference"
  | some msg =>
    let tmplStr := if cfg.PluralCount = 1 ∧ msg.One ≠ "" then msg.One else msg.Other
    match engine.parse msg.ID tmplStr with
    | .err e => .err e
    | .panic p => .panic p
    | .ok tmpl =>
      match engine.execute tmpl cfg.TemplateData with
      | .err e => .err e
      | .panic p => .panic p
      | .ok out => .ok out

/-- A piece of a parsed template: literal text, or the action `{{.Name}}`. -/
inductive Piece where
  | text (s : List Char)
  | field (name : List Char)

/-- Reading an action after its opening `{{`: the characters up to the closing `}}` and
what follows it; `none` when the action is not closed. -/
def splitAction : List Char → Option (List Char × List Char)
  | [] => none
  | '}' :: '}' :: rest => some ([], rest)
  | c :: rest =>
      match splitAction rest with
      | some (body, after) => some (c :: body, after)
      | none => none

/-- The field name of an action body of the shape `.Name`, blanks around it allowed. -/
def fieldOfAction (body : List Char) : Option (List Char) :=
  match (body.dropWhile (fun c => c = ' ')).reverse.dropWhile (fun c => c = ' ') with
  | [] => none
  | rev =>
    match rev.reverse with
    | '.' :: name =>
        if name ≠ [] ∧ name.all (fun c => c.isAlphanum || c = '_') then some name else none
    | _ => none

/-- Parsing for the fragment of `text/template` made of literal text and `{{.Name}}`
actions; `fuel` bounds the number of characters read and `acc` is the literal text read so
far, reversed. -/
def parsePieces : Nat → List Char → List Char → Run (List Piece)
  | 0, _, _ => .err "template: out of fuel"
  | _ + 1, [], acc => .ok (if acc = [] then [] else [.text acc.reverse])
  | fuel + 1, '{' :: '{' :: rest, acc =>
      match splitAction rest with
      | none => .err "template: unclosed action"
      | some (body, after) =>
        match fieldOfAction body with
        | none => .err "template: action outside the field fragment"
        | some name =>
          match parsePieces fuel after [] with
          | .ok pieces =>
              .ok ((if acc = [] then [] else [.text acc.reverse]) ++ .field name :: pieces)
          | .err e => .err e
          | .panic p => .panic p
  | fuel + 1, c :: rest, acc => parsePieces fuel rest (c :: acc)

/-- How `text/template` prints a scalar that a field evaluates to; a key the data map
lacks prints as `<no value>`. -/
def printValue : Option Value → Run String
  | none => .ok "<no value>"
  | some (.str s) => .ok s
  | some (.int n) => .ok (toString n)
  | some (.bool b) => .ok (if b then "true" else "false")
  | some _ => .err "template: value outside the field fragment"

/-- Executing parsed pieces against a data map. -/
def executePieces : List Piece → List (String × Value) → Run String
  | [], _ => .ok ""
  | .text s :: rest, data =>
      match executePieces rest data with
      | .ok out => .ok (String.mk s ++ out)
      | .err e => .err e
      | .panic p => .panic p
  | .field name :: rest, data =>
      match printValue (data.lookup (String.mk name)) with
      | .ok v =>
        match executePieces rest data with
        | .ok out => .ok (v ++ out)
        | .err e => .err e
        | .panic p => .panic p
      | .err e => .err e
      | .panic p => .panic p

/-- The fragment of `text/template` the rendering examples use: literal text and
`{{.Name}}` actions over a map with scalar values. -/
def fieldTemplates : TemplateEngine where
  Template := List Piece
  parse := fun _ text => parsePieces (text.length + 1) text.toList []
  execute := executePieces

/-! ## Template key scanner (`i18n.go`) -/

/-- Matching a literal at the head of the input: what follows it. -/
def expect (lit : List Char) (cs : List Char) : Option (List Char) :=
  if lit.isPrefixOf cs then some (cs.drop lit.length) else none

/-- One match of the regular expression of `ExtractKeysFromTemplate` (i18n.go:78) at the
head of the input: the three strings of the submatch (whole match, group 1, group 2) and
the input after the match.

The pattern is written as a Go raw string literal, in which a backslash is an ordinary
character, so the expression the library compiles contains `\\s`, an escaped backslash
followed by the letter `s`. It reads: two opening braces; a backslash; `s*`; group 1,
`t` or `i18n`; a backslash; `s+`; a double quote; group 2, `[^"]+`; a double quote; two
closing braces. Each repetition is followed by a character it cannot consume, and the two
alternatives of group 1 start differently, so the match at a position is unique and taking
every repetition greedily finds it. -/
def matchTag (cs : List Char) : Option (List String × List Char) :=
  match expect "\x7b\x7b\\".toList cs with
  | none => none
  | some rest =>
    let rest := rest.dropWhile (fun c => c = 's')
    let verb : Option (List Char × List Char) :=
      match expect "t".toList rest with
      | some after => some ("t".toList, after)
      | none =>
        match expect "i18n".toList rest with
        | some after => some ("i18n".toList, after)
        | none => none
    match verb with
    | none => none
    | some (verb, rest) =>
      match expect "\\s".toList rest with
      | none => none
      | some rest =>
        let rest := rest.dropWhile (fun c => c = 's')
        match expect "\"".toList rest with
        | none => none
        | some rest =>
          let key := rest.takeWhile (fun c => c ≠ '"')
          if key = [] then none
          else
            match expect "\"\x7d\x7d".toList (rest.dropWhile (fun c => c ≠ '"')) with
            | none => none
            | some rest =>
              some ([String.mk (cs.take (cs.length - rest.length)), String.mk verb,
                String.mk key], rest)

/-- Go's `re.FindAllStringSubmatch(s, -1)` for that expression: the successive leftmost
matches, each search resuming where the previous match ended. `skip` counts the characters
of the current match still to pass over. -/
def findAllStringSubmatch : List Char → Nat → List (List String)
  | [], _ => []
  | _ :: cs, skip + 1 => findAllStringSubmatch cs skip
  | c :: cs, 0 =>
      match matchTag (c :: cs) with
      | some (groups, rest) =>
          groups :: findAllStringSubmatch cs ((c :: cs).length - rest.length - 1)
      | none => findAllStringSubmatch cs 0

/-- `ExtractKeysFromTemplate` (i18n.go:72-94): the second group of every match, collected
as the keys of a map and then listed. -/
def ExtractKeysFromTemplate (fs : FS String) (templatePath : String) : Run (List String) :=
  match fs templatePath with
  | none => .err ("open " ++ templatePath ++ ": no such file or directory")
  | some data =>
    let found := findAllStringSubmatch data.toList 0
    let keysMap := found.foldl
      (fun keysMap m => if m.length > 2 then mapSet keysMap (m.getD 2 "") () else keysMap)
      ([] : List (String × Unit))
    let keys := keysMap.foldl (fun keys kv => keys ++ [kv.1]) []
    .ok keys

/-! ## Source extractor (`i18n.go`) -/

/-- The kinds of basic literal of `go/token`. -/
inductive LitKind where
  | INT
  | FLOAT
  | IMAG
  | CHAR
  | STRING

/-- The nodes of a parsed Go file (`go/ast`) that the extractor tells apart; every other
kind of node (file, declaration, statement, call, binary expression, ...) is an `other`
with its children in the order `ast.Walk` visits them. The literal text of a `basicLit`
is kept as written, delimiters included. -/
inductive Node where
  | ident (name : String)
  | basicLit (kind : LitKind) (value : String)
  | selectorExpr (x : Node) (sel : String)
  | compositeLit (type : Option Node) (elts : List Node)
  | keyValueExpr (key : Node) (value : Node)
  | other (children : List Node)

mutual
/-- `ast.Inspect(node, f)` for a callback that always returns `true`, as the one of
`ExtractMessagesFromGoFile` does: `f` runs on the node, then on its children in order.
The callback acts on a state and may panic, which ends the traversal. -/
def walk {σ : Type} (f : Node → σ → Run σ) : Node → σ → Run σ
  | .ident name, s => f (.ident name) s
  | .basicLit kind value, s => f (.basicLit kind value) s
  | .selectorExpr x sel, s =>
      match f (.selectorExpr x sel) s with
      | .ok s =>
        match walk f x s with
        | .ok s => f (.ident sel) s
        | .err e => .err e
        | .panic p => .panic p
      | .err e => .err e
      | .panic p => .panic p
  | .compositeLit type elts, s =>
      match f (.compositeLit type elts) s with
      | .ok s =>
        match walkOpt f type s with
        | .ok s => walkList f elts s
        | .err e => .err e
        | .panic p => .panic p
      | .err e => .err e
      | .panic p => .panic p
  | .keyValueExpr key value, s =>
      match f (.keyValueExpr key value) s with
      | .ok s =>
        match walk f key s with
        | .ok s => walk f value s
        | .err e => .err e
        | .panic p => .panic p
      | .err e => .err e
      | .panic p => .panic p
  | .other children, s =>
      match f (.other children) s with
      | .ok s => walkList f children s
      | .err e => .err e
      | .panic p => .panic p
/-- The traversal of an optional child (the type of a composite literal may be elided). -/
def walkOpt {σ : Type} (f : Node → σ → Run σ) : Option Node → σ → Run σ
  | none, s => .ok s
  | some n, s => walk f n s
/-- The traversal of a list of children. -/
def walkList {σ : Type} (f : Node → σ → Run σ) : List Node → σ → Run σ
  | [], s => .ok s
  | n :: ns, s =>
      match walk f n s with
      | .ok s => walkList f ns s
      | .err e => .err e
      | .panic p => .panic p
end

/-- The slice expression `val[1 : len(val)-1]` (i18n.go:227). Go slices bytes; the first
and the last character of a literal the parser yields are ASCII, so slicing characters is
the same. It panics when the text is shorter than two. -/
def stripQuotes (val : String) : Run String :=
  if val.length < 2 then .panic "slice bounds out of range"
  else .ok (String.mk ((val.toList.drop 1).take (val.length - 2)))

/-- The body of the field loop (i18n.go:224-236) for one element of the literal. Both type
assertions are unchecked: a key that is not an identifier and a value that is not a basic
literal panic. -/
def fieldStep (msg : Message) (elt : Node) : Run Message :=
  match elt with
  | .keyValueExpr key value =>
    match key with
    | .ident key =>
      match value with
      | .basicLit _ val =>
        match stripQuotes val with
        | .ok val =>
          if key = "ID" then .ok { msg with ID := val }
          else if key = "One" then .ok { msg with One := val }
          else if key = "Other" then .ok { msg with Other := val }
          else .ok msg
        | .err e => .err e
        | .panic p => .panic p
      | _ => .panic "interface conversion: ast.Expr is not *ast.BasicLit"
    | _ => .panic "interface conversion: ast.Expr is not *ast.Ident"
  | _ => .ok msg

/-- The field loop `for _, elt := range cl.Elts` (i18n.go:223-237). -/
def fieldLoop : List Node → Message → Run Message
  | [], msg => .ok msg
  | elt :: rest, msg =>
      match fieldStep msg elt with
      | .ok msg => fieldLoop rest msg
      | .err e => .err e
      | .panic p => .panic p

/-- The callback of `ast.Inspect` (i18n.go:214-242) as a step on the `messages` slice: a
composite literal whose type is a selector expression with selected name `Message`
appends one message. -/
def visit (n : Node) (messages : List Message) : Run (List Message) :=
  match n with
  | .compositeLit (some (.selectorExpr _ sel)) elts =>
    if sel = "Message" then
      match fieldLoop elts { ID := "", One := "", Other := "" } with
      | .ok msg => .ok (messages ++ [msg])
      | .err e => .err e
      | .panic p => .panic p
    else .ok messages
  | _ => .ok messages

/-- `ExtractMessagesFromGoFile` (i18n.go:206-244); `parseFile path` stands for the external
`parser.ParseFile` on the file at `path`. -/
def ExtractMessagesFromGoFile (parseFile : String → Run Node) (path : String) :
    Run (List Message) :=
  match parseFile path with
  | .ok node => walk visit node []
  | .err e => .err e
  | .panic p => .panic p

/-! ### The extraction as the specification words it -/

mutual
/-- The nodes of a tree in source-document order. -/
def nodesInOrder : Node → List Node
  | .ident name => [.ident name]
  | .basicLit kind value => [.basicLit kind value]
  | .selectorExpr x sel => .selectorExpr x sel :: (nodesInOrder x ++ [.ident sel])
  | .compositeLit type elts =>
      .compositeLit type elts :: (nodesInOrderOpt type ++ nodesInOrderList elts)
  | .keyValueExpr key value =>
      .keyValueExpr key value :: (nodesInOrder key ++ nodesInOrder value)
  | .other children => .other children :: nodesInOrderList children
/-- The nodes of an optional child. -/
def nodesInOrderOpt : Option Node → List Node
  | none => []
  | some n => nodesInOrder n
/-- The nodes of a list of children. -/
def nodesInOrderList : List Node → List Node
  | [] => []
  | n :: ns => nodesInOrder n ++ nodesInOrderList ns
end

/-- The string literal written for the field `name` by an element of a literal: its text
between the delimiters. -/
def writtenField (name : String) : Node → Option String
  | .keyValueExpr (.ident key) (.basicLit .STRING val) =>
      if key = name then some (String.mk val.toList.tail.dropLast) else none
  | _ => none

/-- The value of the field `name` of a literal: the string literal written for it (the
last one, should the field be written twice), empty when it is not written. -/
def stringField (elts : List Node) (name : String) : String :=
  ((elts.filterMap (writtenField name)).getLast?).getD ""

/-- The record of a literal whose type is the qualified `pkg.Message`; no record for any
other node. -/
def literalMessage : Node → Option Message
  | .compositeLit (some (.selectorExpr _ sel)) elts =>
      if sel = "Message" then
        some { ID := stringField elts "ID", One := stringField elts "One",
               Other := stringField elts "Other" }
      else none
  | _ => none

/-- A keyed element has an identifier as key and a string literal, both delimiters
present, as value; a positional element is anything. -/
def plainElement : Node → Bool
  | .keyValueExpr (.ident _) (.basicLit .STRING val) => decide (2 ≤ val.length)
  | .keyValueExpr _ _ => false
  | _ => true

/-- A node that is a `pkg.Message` literal has plain elements only. -/
def plainNode : Node → Bool
  | .compositeLit (some (.selectorExpr _ sel)) elts =>
      if sel = "Message" then elts.all plainElement else true
  | _ => true

/-- Every keyed field of every `pkg.Message` literal of the tree is a string literal under
an identifier key. -/
def messageLiteralsPlain (file : Node) : Bool :=
  (nodesInOrder file).all plainNode

/-- A parsed file with an unqualified `Message` literal, then two `i18n.Message` literals
of the same ID, the second inside a call, with `One` written and a positional element. -/
def sampleFile : Node :=
  .other [.ident "main",
    .other [.compositeLit (some (.ident "Message"))
      [.keyValueExpr (.ident "ID") (.basicLit .STRING "\"Skipped\"")]],
    .other [.compositeLit (some (.selectorExpr (.ident "i18n") "Message"))
      [.keyValueExpr (.ident "ID") (.basicLit .STRING "\"Hello\""),
       .keyValueExpr (.ident "Other") (.basicLit .STRING "\"Hi there\"")]],
    .other [.ident "use", .compositeLit (some (.selectorExpr (.ident "i18n") "Message"))
      [.keyValueExpr (.ident "ID") (.basicLit .STRING "\"Hello\""),
       .keyValueExpr (.ident "One") (.basicLit .STRING "\"One cat\""),
       .basicLit .INT "7"]]]

/-! # Properties -/

/-! ## Go map facts -/

theorem lookup_isSome_iff_mem_keys {β : Type} (es : List (String × β)) (k : String) :
    (es.lookup k).isSome = true ↔ k ∈ es.map Prod.fst := by
  induction es with
  | nil => simp
  | cons kv rest ih =>
    obtain ⟨k', v'⟩ := kv
    by_cases h : k = k'
    · subst h; simp [List.lookup]
    · have hb : (k == k') = false := by simpa using h
      simp [List.lookup, hb, ih, h]

theorem lookup_eq_none_iff_not_mem_keys {β : Type} (es : List (String × β)) (k : String) :
    es.lookup k = none ↔ k ∉ es.map Prod.fst := by
  rw [← lookup_isSome_iff_mem_keys]
  cases es.lookup k <;> simp

theorem entries_alloc (es : Entries) : (TranslationMap.alloc es).entries = es := rfl

theorem get?_isSome_iff (m : TranslationMap) (k : String) :
    (m.get? k).isSome = true ↔ k ∈ m.keys :=
  lookup_isSome_iff_mem_keys m.entries k

theorem lookup_mapSet_self {β : Type} (es : List (String × β)) (k : String) (v : β) :
    (mapSet es k v).lookup k = some v := by
  induction es with
  | nil => simp [mapSet, List.lookup]
  | cons kv rest ih =>
    obtain ⟨k', v'⟩ := kv
    by_cases h : k' = k
    · simp [mapSet, h, List.lookup]
    · have hb : (k == k') = false := by simpa using fun e => h e.symm
      simp [mapSet, h, List.lookup, hb, ih]

theorem lookup_mapSet_ne {β : Type} (es : List (String × β)) (k k' : String) (v : β)
    (hne : k' ≠ k) : (mapSet es k v).lookup k' = es.lookup k' := by
  induction es with
  | nil =>
    have hb : (k' == k) = false := by simpa using hne
    simp [mapSet, List.lookup, hb]
  | cons kv rest ih =>
    obtain ⟨k0, v0⟩ := kv
    by_cases h : k0 = k
    · subst h
      have hb : (k' == k0) = false := by simpa using hne
      simp [mapSet, List.lookup, hb]
    · simp only [mapSet, h, if_false, List.lookup]
      cases k' == k0 <;> simp [ih]

theorem mem_keys_mapSet {β : Type} (es : List (String × β)) (k k' : String) (v : β) :
    k' ∈ (mapSet es k v).map Prod.fst ↔ k' = k ∨ k' ∈ es.map Prod.fst := by
  rw [← lookup_isSome_iff_mem_keys, ← lookup_isSome_iff_mem_keys]
  by_cases h : k' = k
  · subst h; simp [lookup_mapSet_self]
  · simp [lookup_mapSet_ne es k k' v h, h]

/-- A loop that appends the keys failing a test collects exactly those keys, in order. -/
theorem foldl_append_keys {β : Type} (p : String → Bool) (es : List (String × β))
    (init : List String) :
    es.foldl (fun acc kv => if p kv.1 then acc else acc ++ [kv.1]) init
      = init ++ (es.map Prod.fst).filter (fun k => !p k) := by
  induction es generalizing init with
  | nil => simp
  | cons kv rest ih =>
    simp only [List.foldl_cons, List.map_cons, List.filter_cons]
    rw [ih]
    cases p kv.1 <;> simp

theorem CheckMissingAndUnusedKeys_eq (base other : TranslationMap) :
    CheckMissingAndUnusedKeys base other =
      (base.keys.filter (fun k => !(other.get? k).isSome),
       other.keys.filter (fun k => !(base.get? k).isSome)) := by
  unfold CheckMissingAndUnusedKeys
  simp only [foldl_append_keys (fun k => (other.get? k).isSome),
    foldl_append_keys (fun k => (base.get? k).isSome), List.nil_append]
  rfl

theorem count_filter_of_nodup (l : List String) (p : String → Bool) (k : String)
    (hl : l.Nodup) (hk : k ∈ l.filter p) : (l.filter p).count k = 1 :=
  List.count_eq_one_of_mem (hl.filter p) hk

/-! ## C1: missing and unused keys -/

/-- C1: a key is in `missing` iff it is a key of `base` and not of `other`, in `unused` iff
it is a key of `other` and not of `base`; each listed key occurs exactly once; and the two
lists depend on the keys of the catalogs only, never on the values stored under them. -/
theorem CheckMissingAndUnusedKeys_spec (base other : TranslationMap)
    (hb : base.WF) (ho : other.WF) :
    (∀ k, k ∈ (CheckMissingAndUnusedKeys base other).1 ↔ k ∈ base.keys ∧ k ∉ other.keys) ∧
    (∀ k, k ∈ (CheckMissingAndUnusedKeys base other).2 ↔ k ∈ other.keys ∧ k ∉ base.keys) ∧
    (∀ k, k ∈ (CheckMissingAndUnusedKeys base other).1 →
      (CheckMissingAndUnusedKeys base other).1.count k = 1) ∧
    (∀ k, k ∈ (CheckMissingAndUnusedKeys base other).2 →
      (CheckMissingAndUnusedKeys base other).2.count k = 1) ∧
    (∀ base' other' : TranslationMap, base'.keys = base.keys → other'.keys = other.keys →
      CheckMissingAndUnusedKeys base' other' = CheckMissingAndUnusedKeys base other) := by
  rw [CheckMissingAndUnusedKeys_eq]
  refine ⟨?_, ?_, ?_, ?_, ?_⟩
  · intro k
    simp only [List.mem_filter, Bool.not_eq_true', ← Bool.not_eq_true, get?_isSome_iff]
  · intro k
    simp only [List.mem_filter, Bool.not_eq_true', ← Bool.not_eq_true, get?_isSome_iff]
  · intro k hk
    exact count_filter_of_nodup _ _ k hb hk
  · intro k hk
    exact count_filter_of_nodup _ _ k ho hk
  · intro base' other' hb' ho'
    rw [CheckMissingAndUnusedKeys_eq]
    have h1 : ∀ m m' : TranslationMap, m'.keys = m.keys →
        (fun k => !(m'.get? k).isSome) = (fun k => !(m.get? k).isSome) := by
      intro m m' hm
      funext k
      have := get?_isSome_iff m k
      have := get?_isSome_iff m' k
      rw [hm] at this
      cases h : (m.get? k).isSome <;> cases h' : (m'.get? k).isSome <;> simp_all
    rw [hb', ho', h1 other other' ho', h1 base base' hb']

/-- C1 at a concrete pair of catalogs whose shared key carries different values. -/
theorem CheckMissingAndUnusedKeys_spec_witness :
    (TranslationMap.alloc [("hello", .str "Hello"), ("bye", .str "Bye")]).WF ∧
    (TranslationMap.alloc [("hello", .str "Bonjour"), ("extra", .int 3)]).WF ∧
    CheckMissingAndUnusedKeys
      (.alloc [("hello", .str "Hello"), ("bye", .str "Bye")])
      (.alloc [("hello", .str "Bonjour"), ("extra", .int 3)]) = (["bye"], ["extra"]) ∧
    (∀ k, k ∈ (CheckMissingAndUnusedKeys
      (.alloc [("hello", .str "Hello"), ("bye", .str "Bye")])
      (.alloc [("hello", .str "Bonjour"), ("extra", .int 3)])).1 →
      (CheckMissingAndUnusedKeys
      (.alloc [("hello", .str "Hello"), ("bye", .str "Bye")])
      (.alloc [("hello", .str "Bonjour"), ("extra", .int 3)])).1.count k = 1) :=
  ⟨by simp [TranslationMap.WF, TranslationMap.keys, TranslationMap.entries],
   by simp [TranslationMap.WF, TranslationMap.keys, TranslationMap.entries],
   by rfl,
   (CheckMissingAndUnusedKeys_spec _ _
     (by simp [TranslationMap.WF, TranslationMap.keys, TranslationMap.entries])
     (by simp [TranslationMap.WF, TranslationMap.keys, TranslationMap.entries])).2.2.1⟩

/-! ## C3: auto-fill -/

/-- Copying the entries of a well-formed map into `init` one assignment at a time. -/
theorem lookup_foldl_copy (tes : Entries) (hnd : (tes.map Prod.fst).Nodup) (init : Entries)
    (k : String) :
    (tes.foldl (fun filled kv => Entries.set filled kv.1 kv.2) init).lookup k =
      match tes.lookup k with
      | some v => some v
      | none => init.lookup k := by
  induction tes generalizing init with
  | nil => simp
  | cons kv rest ih =>
    obtain ⟨k0, v0⟩ := kv
    simp only [List.map_cons, List.nodup_cons] at hnd
    simp only [List.foldl_cons]
    rw [ih hnd.2]
    by_cases h : k = k0
    · subst h
      have hnone : rest.lookup k = none := (lookup_eq_none_iff_not_mem_keys rest k).2 hnd.1
      simp [hnone, Entries.set, lookup_mapSet_self, List.lookup]
    · have hb : (k == k0) = false := by simpa using h
      simp only [List.lookup, hb, Entries.set, lookup_mapSet_ne init k0 k v0 h]

/-- A loop that adds the entries of `bes` whose key is absent, storing `g` of the value:
present keys keep their value, an absent key gets `g` of its first value in `bes`. -/
theorem lookup_foldl_addMissing (g : Value → Value) (bes : Entries) (init : Entries)
    (k : String) :
    (bes.foldl (fun filled kv =>
        if (filled.lookup kv.1).isSome then filled
        else Entries.set filled kv.1 (g kv.2)) init).lookup k =
      match init.lookup k with
      | some v => some v
      | none =>
        match bes.lookup k with
        | some bv => some (g bv)
        | none => none := by
  induction bes generalizing init with
  | nil => simp; cases init.lookup k <;> rfl
  | cons kv rest ih =>
    obtain ⟨k0, v0⟩ := kv
    simp only [List.foldl_cons]
    rw [ih]
    by_cases h : k = k0
    · subst h
      cases hi : init.lookup k with
      | some v => simp [hi, List.lookup]
      | none => simp [hi, Entries.set, lookup_mapSet_self, List.lookup]
    · have hb : (k == k0) = false := by simpa using h
      have hne : ∀ w, (Entries.set init k0 w).lookup k = init.lookup k :=
        fun w => lookup_mapSet_ne init k0 k w h
      simp only [List.lookup, hb]
      split_ifs <;> simp only [hne]

/-- The fill loop of `AutoFillMissingKeys`: present keys keep their value, absent keys of
`base` get the placeholder or, when it is empty, the value of `base`. -/
theorem lookup_foldl_fill (placeholder : String) (bes : Entries) (init : Entries)
    (k : String) :
    (bes.foldl (fun filled kv =>
        if (filled.lookup kv.1).isSome then filled
        else if placeholder ≠ "" then Entries.set filled kv.1 (.str placeholder)
        else Entries.set filled kv.1 kv.2) init).lookup k =
      match init.lookup k with
      | some v => some v
      | none =>
        match bes.lookup k with
        | some bv => some (if placeholder ≠ "" then .str placeholder else bv)
        | none => none := by
  have hfun : (fun (filled : Entries) (kv : String × Value) =>
        if (filled.lookup kv.1).isSome then filled
        else if placeholder ≠ "" then Entries.set filled kv.1 (.str placeholder)
        else Entries.set filled kv.1 kv.2) =
      (fun filled kv =>
        if (filled.lookup kv.1).isSome then filled
        else Entries.set filled kv.1
          ((fun v => if placeholder ≠ "" then Value.str placeholder else v) kv.2)) := by
    funext filled kv
    split_ifs <;> rfl
  rw [hfun]
  exact lookup_foldl_addMissing _ bes init k

/-- C3: the filled catalog has exactly the keys of `base` and of `target`; every key of
`target` keeps its value; every key of `base` that `target` lacks maps to the placeholder
when that is non-empty and to the value `base` holds when the placeholder is empty. -/
theorem AutoFillMissingKeys_spec (base target : TranslationMap) (placeholder : String)
    (ht : target.WF) :
    (∀ k, k ∈ (AutoFillMissingKeys base target placeholder).keys ↔
      k ∈ base.keys ∨ k ∈ target.keys) ∧
    (∀ k, k ∈ target.keys →
      (AutoFillMissingKeys base target placeholder).get? k = target.get? k) ∧
    (∀ k, k ∈ base.keys → k ∉ target.keys → placeholder ≠ "" →
      (AutoFillMissingKeys base target placeholder).get? k = some (.str placeholder)) ∧
    (∀ k, k ∈ base.keys → k ∉ target.keys → placeholder = "" →
      (AutoFillMissingKeys base target placeholder).get? k = base.get? k) := by
  have hget : ∀ k, (AutoFillMissingKeys base target placeholder).get? k =
      match target.get? k with
      | some v => some v
      | none =>
        match base.get? k with
        | some bv => some (if placeholder ≠ "" then .str placeholder else bv)
        | none => none := by
    intro k
    simp only [AutoFillMissingKeys, TranslationMap.get?, entries_alloc]
    rw [lookup_foldl_fill, lookup_foldl_copy _ ht]
    cases target.entries.lookup k <;> simp [List.lookup]
  refine ⟨?_, ?_, ?_, ?_⟩
  · intro k
    rw [← get?_isSome_iff, ← get?_isSome_iff, ← get?_isSome_iff, hget]
    cases target.get? k <;> cases base.get? k <;> simp
  · intro k hk
    rw [hget]
    have := (get?_isSome_iff target k).2 hk
    cases h : target.get? k with
    | some v => rfl
    | none => simp [h] at this
  · intro k hb hnt hp
    rw [hget]
    have h1 : target.get? k = none := (lookup_eq_none_iff_not_mem_keys _ k).2 hnt
    have h2 := (get?_isSome_iff base k).2 hb
    cases h : base.get? k with
    | some v => simp [h1, hp]
    | none => simp [h] at h2
  · intro k hb hnt hp
    rw [hget]
    have h1 : target.get? k = none := (lookup_eq_none_iff_not_mem_keys _ k).2 hnt
    cases h : base.get? k with
    | some v => simp [h1, hp]
    | none => simp [h1]

/-- C3 on the catalogs of the example program, with its placeholder and with the empty
placeholder. -/
theorem AutoFillMissingKeys_spec_witness :
    (TranslationMap.alloc [("hello", .str "Bonjour")]).WF ∧
    (AutoFillMissingKeys (.alloc [("hello", .str "Hello"), ("bye", .str "Bye")])
      (.alloc [("hello", .str "Bonjour")]) "[MISSING TRANSLATION]").get? "bye"
        = some (.str "[MISSING TRANSLATION]") ∧
    (AutoFillMissingKeys (.alloc [("hello", .str "Hello"), ("bye", .str "Bye")])
      (.alloc [("hello", .str "Bonjour")]) "").get? "bye"
        = (TranslationMap.alloc [("hello", .str "Hello"), ("bye", .str "Bye")]).get? "bye" :=
  ⟨by simp [TranslationMap.WF, TranslationMap.keys, TranslationMap.entries],
   (AutoFillMissingKeys_spec _ _ "[MISSING TRANSLATION]"
     (by simp [TranslationMap.WF, TranslationMap.keys, TranslationMap.entries])).2.2.1 "bye"
       (by simp [TranslationMap.keys, TranslationMap.entries])
       (by simp [TranslationMap.keys, TranslationMap.entries]) (by decide),
   (AutoFillMissingKeys_spec _ _ ""
     (by simp [TranslationMap.WF, TranslationMap.keys, TranslationMap.entries])).2.2.2 "bye"
       (by simp [TranslationMap.keys, TranslationMap.entries])
       (by simp [TranslationMap.keys, TranslationMap.entries]) rfl⟩

/-! ## C2, C4: the merge step -/

/-- On an allocated destination the merge loop never fails: it is a fold that adds the
entries of `srcMap` whose key the destination lacks. -/
theorem mergeLoop_alloc (es : Entries) (src : TranslationMap) (d : Entries) :
    mergeLoop es ⟨src, .alloc d⟩ = .ok ⟨src, .alloc (es.foldl (fun filled kv =>
        if (filled.lookup kv.1).isSome then filled
        else Entries.set filled kv.1 ((fun v => v) kv.2)) d)⟩ := by
  induction es generalizing d with
  | nil => rfl
  | cons kv rest ih =>
    obtain ⟨k, v⟩ := kv
    simp only [mergeLoop, mergeBody, TranslationMap.get?, entries_alloc, List.foldl_cons]
    cases h : (d.lookup k).isSome
    · simp [TranslationMap.assign, ih]
    · simp [ih]

/-- The destination catalog after a merge step that started from an allocated destination. -/
theorem mergeStep_alloc_lookup (src : TranslationMap) (d : Entries) :
    ∃ d', mergeStep ⟨src, .alloc d⟩ = .ok ⟨src, .alloc d'⟩ ∧
      ∀ k, d'.lookup k = match d.lookup k with
        | some v => some v
        | none => src.get? k := by
  refine ⟨_, mergeLoop_alloc src.entries src d, ?_⟩
  intro k
  rw [lookup_foldl_addMissing (fun v => v)]
  cases d.lookup k with
  | some v => rfl
  | none =>
    simp only [TranslationMap.get?]
    cases src.entries.lookup k <;> rfl

/-- C2: with a nil destination catalog (what `LoadMessages` returns for a JSON file holding
`null` or an empty YAML file) and a source holding a key, the merge step panics and no
merged catalog is produced; for every allocated destination it does produce the catalog
the claim describes: the keys of `src` and of `dst`, the `dst` value at every key of
`dst`, the `src` value at every other key of `src`. -/
theorem mergeStep_nil_dst_panics :
    mergeStep ⟨.alloc [("hello", .str "Hello")], .nilMap⟩
      = .panic "assignment to entry in nil map" ∧
    ∀ (src : TranslationMap) (d : Entries), ∃ merged,
      mergeStep ⟨src, .alloc d⟩ = .ok ⟨src, merged⟩ ∧
      (∀ k, k ∈ merged.keys ↔ k ∈ src.keys ∨ k ∈ (TranslationMap.alloc d).keys) ∧
      (∀ k, k ∈ (TranslationMap.alloc d).keys →
        merged.get? k = (TranslationMap.alloc d).get? k) ∧
      (∀ k, k ∈ src.keys → k ∉ (TranslationMap.alloc d).keys →
        merged.get? k = src.get? k) := by
  refine ⟨rfl, ?_⟩
  intro src d
  obtain ⟨d', hrun, hlk⟩ := mergeStep_alloc_lookup src d
  refine ⟨.alloc d', hrun, ?_, ?_, ?_⟩
  · intro k
    rw [← get?_isSome_iff, ← get?_isSome_iff, ← get?_isSome_iff]
    simp only [TranslationMap.get?, entries_alloc, hlk]
    cases d.lookup k <;> cases src.entries.lookup k <;> simp
  · intro k hk
    have := (get?_isSome_iff _ k).2 hk
    simp only [TranslationMap.get?, entries_alloc, hlk] at this ⊢
    cases h : d.lookup k with
    | some v => rfl
    | none => simp [h] at this
  · intro k _ hnd
    have h1 : d.lookup k = none := (lookup_eq_none_iff_not_mem_keys d k).2 hnd
    simp only [TranslationMap.get?, entries_alloc, hlk, h1]

/-- C4, as stated, fails: the merge step writes the missing key into the destination
catalog itself, which afterwards holds a key it did not hold before. -/
theorem mergeStep_mutates_dst :
    ∃ vars', mergeStep ⟨.alloc [("hello", .str "Hello")], .alloc []⟩ = .ok vars' ∧
      (TranslationMap.alloc []).get? "hello" = none ∧
      vars'.dstMap.get? "hello" = some (.str "Hello") :=
  ⟨⟨.alloc [("hello", .str "Hello")], .alloc [("hello", .str "Hello")]⟩, rfl, rfl, rfl⟩

/-- C4 (amended): the merge step leaves `src` as it was and extends the allocated `dst`
in place: the merged catalog is the `dst` variable after the loop; every entry `dst` held
is still there with its value, and its keys are those of `dst` and of `src`. -/
theorem mergeStep_frame (src : TranslationMap) (d : Entries) :
    ∃ vars', mergeStep ⟨src, .alloc d⟩ = .ok vars' ∧
      vars'.srcMap = src ∧
      (∀ k v, (TranslationMap.alloc d).get? k = some v → vars'.dstMap.get? k = some v) ∧
      (∀ k, k ∈ vars'.dstMap.keys ↔ k ∈ (TranslationMap.alloc d).keys ∨ k ∈ src.keys) := by
  obtain ⟨d', hrun, hlk⟩ := mergeStep_alloc_lookup src d
  refine ⟨⟨src, .alloc d'⟩, hrun, rfl, ?_, ?_⟩
  · intro k v hv
    simp only [TranslationMap.get?, entries_alloc] at hv ⊢
    rw [hlk, hv]
  · intro k
    rw [← get?_isSome_iff, ← get?_isSome_iff, ← get?_isSome_iff]
    simp only [TranslationMap.get?, entries_alloc, hlk]
    cases d.lookup k <;> cases src.entries.lookup k <;> simp

/-! ## C9: saving and loading a catalog of plain strings -/

theorem messages_of_strings (es : Entries) (hM : ∀ kv ∈ es, ∃ s, kv.2 = Value.str s)
    (init : List Message) :
    es.foldl (fun messages kv => messages ++ [messageOfEntry kv.1 kv.2]) init =
      init ++ (es.map Prod.fst).map (fun k => ({ ID := k, One := "", Other := "" } : Message)) := by
  induction es generalizing init with
  | nil => simp
  | cons kv rest ih =>
    obtain ⟨k, v⟩ := kv
    obtain ⟨s, hs⟩ := hM (k, v) (by simp)
    simp only at hs
    subst hs
    rw [List.foldl_cons, ih (fun kv h => hM kv (List.mem_cons_of_mem _ h))]
    simp [messageOfEntry]

/-- C9: on the TOML save path the string values are lost. The catalogs `hello: Hi` and
`hello: Bye` are saved to `es.toml` as the same bytes, so whatever the TOML library does,
loading cannot give back the value of both, where the claim has saving and loading return
the catalog that was saved. -/
theorem toml_save_loses_strings :
    ¬ ∃ (Bytes : Type) (lib : Codecs Bytes) (fs fs1 fs2 : FS Bytes) (M1 M2 : TranslationMap),
      mergeSave lib fs (.alloc [("hello", .str "Hi")]) "es.toml" = .ok fs1 ∧
      LoadMessages lib fs1 "es.toml" = .ok M1 ∧ M1.get? "hello" = some (.str "Hi") ∧
      mergeSave lib fs (.alloc [("hello", .str "Bye")]) "es.toml" = .ok fs2 ∧
      LoadMessages lib fs2 "es.toml" = .ok M2 ∧ M2.get? "hello" = some (.str "Bye") := by
  rintro ⟨Bytes, lib, fs, fs1, fs2, M1, M2, hs1, hl1, hg1, hs2, hl2, hg2⟩
  have hsame : mergeSave lib fs (.alloc [("hello", .str "Hi")]) "es.toml" =
      mergeSave lib fs (.alloc [("hello", .str "Bye")]) "es.toml" := rfl
  rw [hsame, hs2] at hs1
  cases hs1
  rw [hl2] at hl1
  cases hl1
  rw [hg2] at hg1
  injection hg1 with hv
  injection hv with hstr
  exact absurd hstr (by decide)

/-- What the TOML case hands to the encoder for the catalog `hello: Hi`: the record of
`hello` with every field empty; the string `Hi` is not in it. -/
theorem mergeSave_toml_at_string {Bytes : Type} (lib : Codecs Bytes) (fs : FS Bytes) :
    mergeSave lib fs (.alloc [("hello", .str "Hi")]) "es.toml" =
      match lib.tomlMarshal [("hello", { Description := "", One := "", Other := "" })] with
      | .ok data => .ok (writeFile fs "es.toml" data)
      | .err e => .err e
      | .panic p => .panic p := by
  rfl

/-- The extent of the loss: for catalogs of plain strings what the TOML case writes is
fixed by the keys, the values play no part. -/
theorem mergeSave_toml_ignores_strings {Bytes : Type} (lib : Codecs Bytes) (fs : FS Bytes)
    (M M' : TranslationMap) (out : String) (hext : filepath.Ext out = ".toml")
    (hM : allStrings M) (hM' : allStrings M') (hkeys : M'.keys = M.keys) :
    mergeSave lib fs M' out = mergeSave lib fs M out := by
  simp only [mergeSave, hext, if_true]
  rw [messages_of_strings _ hM', messages_of_strings _ hM]
  unfold TranslationMap.keys at hkeys
  rw [hkeys]

/-- The JSON save path does what the claim says: for a catalog of plain strings, saving
and then loading with `LoadMessages` gives back the same keys and values, the JSON library
round-tripping such catalogs. -/
theorem json_save_load_strings {Bytes : Type} (lib : Codecs Bytes) (fs : FS Bytes)
    (M : TranslationMap) (hM : allStrings M) (out : String)
    (hext : filepath.Ext out = ".json") (hlib : jsonRoundTrips lib) :
    ∃ fs' M', mergeSave lib fs M out = .ok fs' ∧ LoadMessages lib fs' out = .ok M' ∧
      sameCatalog M M' := by
  obtain ⟨data, M', hm, hu, hsame⟩ := hlib M hM
  refine ⟨writeFile fs out data, M', ?_, ?_, hsame⟩
  · simp [mergeSave, hext, hm]
  · have hlow : strings.ToLower ".json" = ".json" := by decide
    simp [LoadMessages, writeFile, hext, hlow, hu]

/-- The JSON round trip at a one-entry catalog saved to `es.json`, over `catalogCodecs`. -/
theorem json_save_load_strings_at_sample :
    allStrings (.alloc [("hello", .str "Hi")]) ∧ jsonRoundTrips catalogCodecs ∧
    ∃ fs' M', mergeSave catalogCodecs (fun _ => none) (.alloc [("hello", .str "Hi")]) "es.json"
        = .ok fs' ∧
      LoadMessages catalogCodecs fs' "es.json" = .ok M' ∧
      sameCatalog (.alloc [("hello", .str "Hi")]) M' :=
  have hM : allStrings (.alloc [("hello", .str "Hi")]) := by
    intro kv hkv
    simp [TranslationMap.entries] at hkv
    exact ⟨"Hi", by rw [hkv]⟩
  have hlib : jsonRoundTrips catalogCodecs := fun M _ => ⟨M, M, rfl, rfl, fun _ => rfl⟩
  ⟨hM, hlib, json_save_load_strings catalogCodecs (fun _ => none) _ hM "es.json" (by decide) hlib⟩

/-- The type assertion of the TOML case at a nested record: read when it is a
`map[string]interface{}`, skipped when it is a `TranslationMap`. -/
theorem messageOfEntry_nested :
    messageOfEntry "cats" (.table [("one", .str "a cat"), ("other", .str "cats")])
      = ⟨"cats", "a cat", "cats"⟩ ∧
    messageOfEntry "cats" (.catalog [("one", .str "a cat"), ("other", .str "cats")])
      = ⟨"cats", "", ""⟩ :=
  ⟨rfl, rfl⟩

/-! ## C10: format selection -/

/-- How `LoadMessages` picks the decoder of an existing file: by the lower-cased extension,
with an error for any extension outside the four. -/
theorem LoadMessages_selects {Bytes : Type} (lib : Codecs Bytes) (fs : FS Bytes)
    (path : String) (data : Bytes) (hread : fs path = some data) :
    (strings.ToLower (filepath.Ext path) = ".yaml" ∨
        strings.ToLower (filepath.Ext path) = ".yml" →
      LoadMessages lib fs path = lib.yamlUnmarshal data) ∧
    (strings.ToLower (filepath.Ext path) = ".json" →
      LoadMessages lib fs path = lib.jsonUnmarshal data) ∧
    (strings.ToLower (filepath.Ext path) = ".toml" →
      LoadMessages lib fs path = lib.tomlUnmarshal data) ∧
    (strings.ToLower (filepath.Ext path) ≠ ".yaml" →
      strings.ToLower (filepath.Ext path) ≠ ".yml" →
      strings.ToLower (filepath.Ext path) ≠ ".json" →
      strings.ToLower (filepath.Ext path) ≠ ".toml" →
      LoadMessages lib fs path =
        .err ("unsupported file format: " ++ strings.ToLower (filepath.Ext path))) := by
  refine ⟨?_, ?_, ?_, ?_⟩
  · intro h
    simp only [LoadMessages, hread, h, if_true]
  · intro h
    have h1 : ¬ ((".json" : String) = ".yaml" ∨ (".json" : String) = ".yml") := by decide
    simp only [LoadMessages, hread, h, h1, if_true, if_false]
  · intro h
    have h1 : ¬ ((".toml" : String) = ".yaml" ∨ (".toml" : String) = ".yml") := by decide
    have h2 : ¬ ((".toml" : String) = ".json") := by decide
    simp only [LoadMessages, hread, h, h1, h2, if_true, if_false]
  · intro h1 h2 h3 h4
    simp only [LoadMessages, hread, h1, h2, h3, h4, or_self, if_false]

/-- The save step of the merge command rejects every output path whose extension, as
written, is none of the four lower-case ones. -/
theorem mergeSave_rejects {Bytes : Type} (lib : Codecs Bytes) (fs : FS Bytes)
    (dstMap : TranslationMap) (out : String)
    (h1 : filepath.Ext out ≠ ".toml") (h2 : filepath.Ext out ≠ ".yaml")
    (h3 : filepath.Ext out ≠ ".yml") (h4 : filepath.Ext out ≠ ".json") :
    mergeSave lib fs dstMap out = .err ("unsupported output format: " ++ filepath.Ext out) := by
  simp only [mergeSave, h1, h2, h3, h4, or_self, if_false]

/-- C10: `LoadMessages` lower-cases the extension and decodes `es.JSON` as JSON, but the
save step of the merge command compares the extension as written and rejects the same
path as an unsupported output format. -/
theorem mergeSave_rejects_upper_case_extension {Bytes : Type} (lib : Codecs Bytes)
    (fs : FS Bytes) (data : Bytes) (dstMap : TranslationMap) :
    LoadMessages lib (writeFile fs "es.JSON" data) "es.JSON" = lib.jsonUnmarshal data ∧
    mergeSave lib fs dstMap "es.JSON" = .err "unsupported output format: .JSON" := by
  constructor
  · have h : strings.ToLower (filepath.Ext "es.JSON") = ".json" := by decide
    simp [LoadMessages, writeFile, h]
  · have h : filepath.Ext "es.JSON" = ".JSON" := by decide
    simp [mergeSave, h]

/-! ## C5: plural selection -/

/-- C5: `Localize` parses and executes `message.One` when `PluralCount == 1` and `One` is
non-empty, and `message.Other` in every other case; with the message
`One: "{{.Count}} cat"`, `Other: "{{.Count}} cats"` it returns `1 cat` for count 1 and
`2 cats` for count 2. -/
theorem Localize_selects_variant :
    (∀ (engine : TemplateEngine) (msg : Message) (data : List (String × Value)) (count : Int),
      (count = 1 ∧ msg.One ≠ "" →
        Localize engine ⟨some msg, data, count⟩ = engine.render msg.ID msg.One data) ∧
      (¬ (count = 1 ∧ msg.One ≠ "") →
        Localize engine ⟨some msg, data, count⟩ = engine.render msg.ID msg.Other data)) ∧
    Localize fieldTemplates
      ⟨some ⟨"x", "\x7b\x7b.Count\x7d\x7d cat", "\x7b\x7b.Count\x7d\x7d cats"⟩,
        [("Count", .int 1)], 1⟩ = .ok "1 cat" ∧
    Localize fieldTemplates
      ⟨some ⟨"x", "\x7b\x7b.Count\x7d\x7d cat", "\x7b\x7b.Count\x7d\x7d cats"⟩,
        [("Count", .int 2)], 2⟩ = .ok "2 cats" := by
  refine ⟨?_, rfl, rfl⟩
  intro engine msg data count
  constructor
  · intro h
    unfold Localize TemplateEngine.render
    simp only [if_pos h]
    cases engine.parse msg.ID msg.One with
    | ok tmpl => dsimp only; cases engine.execute tmpl data <;> rfl
    | err e => rfl
    | panic p => rfl
  · intro h
    unfold Localize TemplateEngine.render
    simp only [if_neg h]
    cases engine.parse msg.ID msg.Other with
    | ok tmpl => dsimp only; cases engine.execute tmpl data <;> rfl
    | err e => rfl
    | panic p => rfl

/-! ## C6: template keys -/

theorem expect_mem (lit cs rest : List Char) (h : expect lit cs = some rest) :
    ∀ c ∈ lit, c ∈ cs := by
  unfold expect at h
  split at h
  · rename_i hp
    intro c hc
    exact (List.isPrefixOf_iff_prefix.1 hp).subset hc
  · cases h

theorem matchTag_none_of_no_backslash (cs : List Char) (h : '\\' ∉ cs) : matchTag cs = none := by
  unfold matchTag
  cases hexp : expect "\x7b\x7b\\".toList cs with
  | none => rfl
  | some rest => exact absurd (expect_mem _ _ _ hexp '\\' (by decide)) h

theorem findAllStringSubmatch_nil_of_no_backslash (cs : List Char) (skip : Nat)
    (h : '\\' ∉ cs) : findAllStringSubmatch cs skip = [] := by
  induction cs generalizing skip with
  | nil => rfl
  | cons c rest ih =>
    have hrest : '\\' ∉ rest := fun hc => h (List.mem_cons_of_mem _ hc)
    cases skip with
    | zero => simp [findAllStringSubmatch, matchTag_none_of_no_backslash _ h, ih 0 hrest]
    | succ n => simp [findAllStringSubmatch, ih n hrest]

/-- A template text without a backslash character yields no key, whatever tags it holds. -/
theorem ExtractKeysFromTemplate_no_backslash (fs : FS String) (templatePath text : String)
    (hread : fs templatePath = some text) (h : '\\' ∉ text.toList) :
    ExtractKeysFromTemplate fs templatePath = .ok [] := by
  simp only [ExtractKeysFromTemplate, hread,
    findAllStringSubmatch_nil_of_no_backslash text.toList 0 h, List.foldl_nil]

/-- C6: on a template holding the three tags `{{t "greeting"}}`, `{{i18n "greeting"}}` and
`{{t "farewell"}}` the scanner returns no key at all, where the claim has `greeting` and
`farewell`; what its expression does match is a tag written with the backslashes and the
letter `s` spelled out, `{{\t\s"greeting"}}`. -/
theorem ExtractKeysFromTemplate_misses_tags :
    ExtractKeysFromTemplate (fun _ => some
      "\x7b\x7bt \"greeting\"\x7d\x7d \x7b\x7bi18n \"greeting\"\x7d\x7d \x7b\x7bt \"farewell\"\x7d\x7d")
      "page.tmpl" = .ok [] ∧
    ExtractKeysFromTemplate (fun _ => some
      "\x7b\x7b\\t\\s\"greeting\"\x7d\x7d \x7b\x7b\\i18n\\ss\"greeting\"\x7d\x7d")
      "page.tmpl" = .ok ["greeting"] :=
  ⟨by rfl, by rfl⟩

/-! ## C7, C8: source extraction -/

theorem stripQuotes_ok (val : String) (h : 2 ≤ val.length) :
    stripQuotes val = .ok (String.mk val.toList.tail.dropLast) := by
  have hlen : val.length = val.toList.length := rfl
  have hnot : ¬ val.length < 2 := by omega
  simp only [stripQuotes, hnot, if_false]
  congr 2
  rw [List.dropLast_eq_take, List.length_tail, ← List.drop_one, hlen]
  congr 1

theorem getLast?_cons_getD {α : Type} (x d : α) (l : List α) :
    ((x :: l).getLast?).getD d = (l.getLast?).getD x := by
  cases l with
  | nil => rfl
  | cons y t => simp [List.getLast?_cons_cons, List.getLast?_eq_getLast]

/-- The value a field ends with after the field loop ran from a message holding `d`. -/
theorem fieldLoop_plain (elts : List Node) (h : elts.all plainElement = true) (msg : Message) :
    fieldLoop elts msg = .ok
      { ID := ((elts.filterMap (writtenField "ID")).getLast?).getD msg.ID,
        One := ((elts.filterMap (writtenField "One")).getLast?).getD msg.One,
        Other := ((elts.filterMap (writtenField "Other")).getLast?).getD msg.Other } := by
  induction elts generalizing msg with
  | nil => rfl
  | cons elt rest ih =>
    simp only [List.all_cons, Bool.and_eq_true] at h
    obtain ⟨helt, hrest⟩ := h
    cases elt with
    | keyValueExpr key value =>
      cases key with
      | ident key =>
        cases value with
        | basicLit kind val =>
          cases kind with
          | STRING =>
            have hlen : 2 ≤ val.length := by simpa [plainElement] using helt
            simp only [fieldLoop, fieldStep, stripQuotes_ok val hlen]
            by_cases h1 : key = "ID"
            · subst h1
              simp [ih hrest, writtenField, List.filterMap_cons, getLast?_cons_getD]
            · by_cases h2 : key = "One"
              · subst h2
                simp [ih hrest, writtenField, List.filterMap_cons, getLast?_cons_getD]
              · by_cases h3 : key = "Other"
                · subst h3
                  simp [ih hrest, writtenField, List.filterMap_cons, getLast?_cons_getD]
                · simp [ih hrest, writtenField, List.filterMap_cons, h1, h2, h3]
          | _ => simp [plainElement] at helt
        | _ => simp [plainElement] at helt
      | _ => simp [plainElement] at helt
    | _ => simp [fieldLoop, fieldStep, ih hrest, writtenField, List.filterMap_cons]

/-- One step of the traversal appends the record of the node, if it has one. -/
theorem visit_plain (n : Node) (h : plainNode n = true) (messages : List Message) :
    visit n messages = .ok (messages ++ (literalMessage n).toList) := by
  cases n with
  | compositeLit type elts =>
    cases type with
    | none => simp [visit, literalMessage]
    | some t =>
      cases t with
      | selectorExpr x sel =>
        by_cases hs : sel = "Message"
        · have hp : elts.all plainElement = true := by simpa [plainNode, hs] using h
          simp [visit, literalMessage, hs, fieldLoop_plain elts hp, stringField]
        · simp [visit, literalMessage, hs]
      | _ => simp [visit, literalMessage]
  | _ => simp [visit, literalMessage]

theorem all_append_true {α : Type} (p : α → Bool) (a b : List α)
    (h : (a ++ b).all p = true) : a.all p = true ∧ b.all p = true := by
  simpa [List.all_append] using h

mutual
/-- The traversal of a tree of plain message literals appends the records of its nodes in
source-document order. -/
theorem walk_visit : ∀ (n : Node) (messages : List Message),
    (nodesInOrder n).all plainNode = true →
    walk visit n messages = .ok (messages ++ (nodesInOrder n).filterMap literalMessage)
  | .ident name, messages, _ => by simp [walk, visit, nodesInOrder, literalMessage]
  | .basicLit kind value, messages, _ => by simp [walk, visit, nodesInOrder, literalMessage]
  | .selectorExpr x sel, messages, h => by
    simp only [nodesInOrder, List.all_cons, Bool.and_eq_true] at h
    have hx := (all_append_true _ _ _ h.2).1
    simp [walk, visit, nodesInOrder, literalMessage, walk_visit x messages hx]
  | .compositeLit type elts, messages, h => by
    simp only [nodesInOrder, List.all_cons, Bool.and_eq_true] at h
    obtain ⟨hn, hch⟩ := h
    obtain ⟨ht, he⟩ := all_append_true _ _ _ hch
    simp only [walk, visit_plain _ hn, walkOpt_visit type _ ht, walkList_visit elts _ he,
      nodesInOrder, List.filterMap_cons, List.filterMap_append]
    cases literalMessage (.compositeLit type elts) <;> simp
  | .keyValueExpr key value, messages, h => by
    simp only [nodesInOrder, List.all_cons, Bool.and_eq_true] at h
    obtain ⟨hk, hv⟩ := all_append_true _ _ _ h.2
    simp [walk, visit, nodesInOrder, literalMessage, walk_visit key messages hk,
      walk_visit value _ hv]
  | .other children, messages, h => by
    simp only [nodesInOrder, List.all_cons, Bool.and_eq_true] at h
    simp [walk, visit, nodesInOrder, literalMessage, walkList_visit children messages h.2]
/-- The same for an optional child. -/
theorem walkOpt_visit : ∀ (t : Option Node) (messages : List Message),
    (nodesInOrderOpt t).all plainNode = true →
    walkOpt visit t messages = .ok (messages ++ (nodesInOrderOpt t).filterMap literalMessage)
  | none, messages, _ => by simp [walkOpt, nodesInOrderOpt]
  | some n, messages, h => by
    simp only [nodesInOrderOpt] at h
    simp [walkOpt, nodesInOrderOpt, walk_visit n messages h]
/-- The same for a list of children. -/
theorem walkList_visit : ∀ (ns : List Node) (messages : List Message),
    (nodesInOrderList ns).all plainNode = true →
    walkList visit ns messages =
      .ok (messages ++ (nodesInOrderList ns).filterMap literalMessage)
  | [], messages, _ => by simp [walkList, nodesInOrderList]
  | n :: ns, messages, h => by
    simp only [nodesInOrderList] at h
    obtain ⟨hn, hns⟩ := all_append_true _ _ _ h
    simp [walkList, nodesInOrderList, walk_visit n messages hn, walkList_visit ns _ hns]
end

/-- C7, as stated, fails: for a source whose only literal is the unqualified
`Message{ID: "Hello", Other: "Hi there"}` (here `var greeting = Message{...}` in package
`main`) the extractor returns no record. -/
theorem ExtractMessagesFromGoFile_skips_unqualified :
    ExtractMessagesFromGoFile (fun _ => .ok (.other [.ident "main", .other [.other
      [.ident "greeting", .compositeLit (some (.ident "Message"))
        [.keyValueExpr (.ident "ID") (.basicLit .STRING "\"Hello\""),
         .keyValueExpr (.ident "Other") (.basicLit .STRING "\"Hi there\"")]]]]))
      "main.go" = .ok [] := by
  rfl

/-- C7 (amended): when the source parses and every keyed field of its `pkg.Message`
literals is a string literal under an identifier key, the extractor returns exactly one
record per composite literal whose type is a qualified selector `pkg.Message`, in
source-document order and without deduplicating IDs; `ID`, `One` and `Other` hold the text
between the delimiters of the string literal written for them and are empty when the
field is not written. -/
theorem ExtractMessagesFromGoFile_spec (parseFile : String → Run Node) (path : String)
    (file : Node) (hparse : parseFile path = .ok file)
    (hplain : messageLiteralsPlain file = true) :
    ExtractMessagesFromGoFile parseFile path =
      .ok ((nodesInOrder file).filterMap literalMessage) := by
  unfold ExtractMessagesFromGoFile
  rw [hparse]
  simp only [walk_visit file [] hplain, List.nil_append]

/-- C7 (amended) on `sampleFile`: the unqualified literal and the positional element leave
no trace, the two qualified literals of the same ID give two records in order. -/
theorem ExtractMessagesFromGoFile_spec_witness :
    messageLiteralsPlain sampleFile = true ∧
    ExtractMessagesFromGoFile (fun _ => .ok sampleFile) "main.go" =
      .ok [⟨"Hello", "", "Hi there"⟩, ⟨"Hello", "One cat", ""⟩] :=
  ⟨rfl, ExtractMessagesFromGoFile_spec (fun _ => .ok sampleFile) "main.go" sampleFile rfl rfl⟩

/-- C8: a `pkg.Message` literal whose `ID` is an identifier (`i18n.Message{ID: someVar,
Other: "Hi there"}`) makes the extractor panic on the unchecked type assertion instead of
returning the record with `ID` empty and `Other` read; a numeric literal value is not
ignored either: `ID: 12345` is stored as `234`. -/
theorem ExtractMessagesFromGoFile_panics_on_computed_field :
    ExtractMessagesFromGoFile (fun _ => .ok (.other [.ident "main", .other [.other
      [.ident "greeting", .compositeLit (some (.selectorExpr (.ident "i18n") "Message"))
        [.keyValueExpr (.ident "ID") (.ident "someVar"),
         .keyValueExpr (.ident "Other") (.basicLit .STRING "\"Hi there\"")]]]]))
      "main.go" = .panic "interface conversion: ast.Expr is not *ast.BasicLit" ∧
    ExtractMessagesFromGoFile (fun _ => .ok (.other [.ident "main", .other [.other
      [.ident "greeting", .compositeLit (some (.selectorExpr (.ident "i18n") "Message"))
        [.keyValueExpr (.ident "ID") (.basicLit .INT "12345"),
         .keyValueExpr (.ident "Other") (.basicLit .STRING "\"Hi there\"")]]]]))
      "main.go" = .ok [⟨"234", "", "Hi there"⟩] :=
  ⟨rfl, rfl⟩

end LibreI18n
